import Mathlib

/-!
Verification development for the SMQTK-IQR session engine
(`smqtk_iqr/iqr/iqr_session.py`), shallowly embedded in Lean.

Embedding conventions:
* `DescriptorElement` is a stable key (`uuid : Nat`) carrying a numeric
  vector; Python float vectors are embedded as `List Int` (only equality
  and identity of vectors matter to the verified properties).
* Python `set` is embedded as `Finset`; set iteration (unordered in
  Python) is given the canonical sorted order of a linear order on
  descriptor elements, and the verified properties are order independent.
* The `MemoryDescriptorSet` working set is a Python dict keyed by uuid
  and is embedded as an insertion-ordered association list with in-place
  upsert (a dict update on an existing key keeps the key's position).
* Fallible methods return `Except (PyError × IqrState) IqrState`; the
  state carried by an error is the session state at the moment the
  exception propagates (mutations performed before the raise included).
* Relevancy scores (Python floats) are embedded as `Int`.
-/

namespace IqrSessionModel

/-- A descriptor element: stable key (`uuid`) plus numeric vector. -/
structure DescriptorElement where
  uuid : Nat
  vector : List Int
deriving DecidableEq

/-- Canonical linear order on descriptor elements (lexicographic on key,
then vector), used only to fix a deterministic iteration order for
embedded Python sets. -/
instance : LinearOrder DescriptorElement :=
  LinearOrder.lift' (fun d => toLex (d.uuid, d.vector)) (by
    intro a b h
    cases a
    cases b
    simp only [toLex_inj, Prod.mk.injEq] at h
    simp [h.1, h.2])

/-- A Python set of descriptor elements. -/
abbrev DSet := Finset DescriptorElement

/-- The Python exceptions the session engine can raise. -/
inductive PyError where
  | runtimeError (msg : String)
  | valueError (msg : String)
  | keyError
  | assertionError
deriving DecidableEq

/-- `MemoryDescriptorSet.add_descriptor`: dict upsert keyed by uuid; an
existing key keeps its position, a new key is appended. -/
def addDescriptor (ws : List DescriptorElement) (d : DescriptorElement) :
    List DescriptorElement :=
  if ws.any (fun e => e.uuid == d.uuid) then
    ws.map (fun e => if e.uuid == d.uuid then d else e)
  else
    ws ++ [d]

/-- `MemoryDescriptorSet.add_many_descriptors`. -/
def addManyDescriptors (ws : List DescriptorElement)
    (ds : List DescriptorElement) : List DescriptorElement :=
  ds.foldl addDescriptor ws

/-- `MemoryDescriptorSet.get_many_descriptors`: resolve uuids back to
descriptors, raising `KeyError` (modelled as `none`) if one is absent. -/
def get_many_descriptors (ws : List DescriptorElement) (uuids : List Nat) :
    Option (List DescriptorElement) :=
  uuids.mapM (fun u => ws.find? (fun e => e.uuid == u))

/-- The mutable state of `IqrSession` (the fields of `__init__`). -/
structure IqrState where
  working_set : List DescriptorElement
  wi_seeds_used : Finset Nat
  external_positive_descriptors : DSet
  external_negative_descriptors : DSet
  positive_descriptors : DSet
  negative_descriptors : DSet
  rank_contrib_pos : DSet
  rank_contrib_pos_ext : DSet
  rank_contrib_neg : DSet
  rank_contrib_neg_ext : DSet
  results : Option (List (DescriptorElement × Int))
  feedback_list : Option (List DescriptorElement)
  ordered_results_cache : Option (List (DescriptorElement × Int))
  ordered_pos_cache : Option (List (DescriptorElement × Int))
  ordered_neg_cache : Option (List (DescriptorElement × Int))
  ordered_non_adj_cache : Option (List (DescriptorElement × Int))
deriving DecidableEq

/-- The state produced by `IqrSession.__init__`. -/
def initialState : IqrState where
  working_set := []
  wi_seeds_used := ∅
  external_positive_descriptors := ∅
  external_negative_descriptors := ∅
  positive_descriptors := ∅
  negative_descriptors := ∅
  rank_contrib_pos := ∅
  rank_contrib_pos_ext := ∅
  rank_contrib_neg := ∅
  rank_contrib_neg_ext := ∅
  results := none
  feedback_list := none
  ordered_results_cache := none
  ordered_pos_cache := none
  ordered_neg_cache := none
  ordered_non_adj_cache := none

/-- `IqrSession.external_descriptors`: update the external sets; each
argument set is added to its own category and removed from the opposite
one. -/
def external_descriptors (s : IqrState) (positive negative : DSet) :
    IqrState :=
  { s with
    external_positive_descriptors :=
      (s.external_positive_descriptors ∪ positive) \ negative
    external_negative_descriptors :=
      (s.external_negative_descriptors ∪ negative) \ positive }

/-- `IqrSession.adjudicate`: set arithmetic on the working-set
adjudication sets, with cache invalidation flags mirroring
`pos_changed` / `neg_changed` in the source. -/
def adjudicate (s : IqrState)
    (new_positives new_negatives un_positives un_negatives : DSet) :
    IqrState :=
  let pos' :=
    ((s.positive_descriptors ∪ new_positives) \ un_positives) \ new_negatives
  let neg' :=
    ((s.negative_descriptors ∪ new_negatives) \ un_negatives) \ new_positives
  let posChanged := pos' ≠ s.positive_descriptors
  let negChanged := neg' ≠ s.negative_descriptors
  { s with
    positive_descriptors := pos'
    negative_descriptors := neg'
    ordered_pos_cache :=
      if posChanged then none else s.ordered_pos_cache
    ordered_neg_cache :=
      if negChanged then none else s.ordered_neg_cache
    ordered_non_adj_cache :=
      if posChanged ∨ negChanged then none else s.ordered_non_adj_cache }

/-- One iteration of the seed loop in `IqrSession.update_working_set`:
skip seeds already queried, otherwise merge the neighbor results into the
working set and record the seed's uuid. -/
def updateWorkingSetStep (nn : DescriptorElement → List DescriptorElement)
    (s : IqrState) (p : DescriptorElement) : IqrState :=
  if p.uuid ∈ s.wi_seeds_used then s
  else
    { s with
      working_set := addManyDescriptors s.working_set (nn p)
      wi_seeds_used := insert p.uuid s.wi_seeds_used }

/-- `IqrSession.update_working_set` (aka "grow").  The nearest-neighbor
index is an injected pure capability `nn` (the `n=pos_seed_neighbors`
argument is baked into it).  Python iterates the set `pos_examples` in
unspecified order; we iterate it in canonical sorted order. -/
def update_working_set (s : IqrState)
    (nn : DescriptorElement → List DescriptorElement) :
    Except (PyError × IqrState) IqrState :=
  let pos_examples :=
    s.external_positive_descriptors ∪ s.positive_descriptors
  if pos_examples.card = 0 then
    .error (.runtimeError
      "No positive descriptors to query the neighbor index with.", s)
  else
    .ok ((pos_examples.sort (· ≤ ·)).foldl (updateWorkingSetStep nn) s)

/-- The injected `RankRelevancyWithFeedback.rank_with_feedback`
capability: `(pos vectors, neg vectors, pool vectors, pool uids) ↦
(probabilities, feedback uuids)`. -/
abbrev RankCap :=
  List (List Int) → List (List Int) → List (List Int) → List Nat →
    List Int × List Nat

/-- `IqrSession.refine`.  Error cases in source order: no positive
adjudication (`RuntimeError`), then the `zip(*self.working_set.items())`
unpacking that fails on an empty working set (`ValueError`), then the
`KeyError` from resolving feedback uuids (at which point `results` has
already been assigned, which the carried error state reflects). -/
def refine (s : IqrState) (cap : RankCap) :
    Except (PyError × IqrState) IqrState :=
  let posSet := s.positive_descriptors ∪ s.external_positive_descriptors
  let negSet := s.negative_descriptors ∪ s.external_negative_descriptors
  let pos := (posSet.sort (· ≤ ·)).map (fun d => d.vector)
  let neg := (negSet.sort (· ≤ ·)).map (fun d => d.vector)
  if pos = [] then
    .error (.runtimeError "Did not find at least one positive adjudication.", s)
  else if s.working_set = [] then
    .error (.valueError "not enough values to unpack", s)
  else
    let pool_uids := s.working_set.map (fun d => d.uuid)
    let pool := s.working_set.map (fun d => d.vector)
    let pr := cap pos neg pool pool_uids
    let results := s.working_set.zip pr.1
    match get_many_descriptors s.working_set pr.2 with
    | none => .error (.keyError, { s with results := some results })
    | some fb =>
      .ok { s with
        results := some results
        feedback_list := some fb
        rank_contrib_pos := s.positive_descriptors
        rank_contrib_pos_ext := s.external_positive_descriptors
        rank_contrib_neg := s.negative_descriptors
        rank_contrib_neg_ext := s.external_negative_descriptors
        ordered_results_cache := none
        ordered_pos_cache := none
        ordered_neg_cache := none
        ordered_non_adj_cache := none }

/-- The ordering used by `sorted(result_items, key=lambda p: p[1],
reverse=True)`: non-increasing score. -/
def scoreRel (a b : DescriptorElement × Int) : Prop := b.2 ≤ a.2

instance : DecidableRel scoreRel := fun a b => Int.decLe b.2 a.2

instance : IsTotal (DescriptorElement × Int) scoreRel :=
  ⟨fun a b => le_total b.2 a.2⟩

instance : IsTrans (DescriptorElement × Int) scoreRel :=
  ⟨fun _ _ _ h1 h2 => le_trans h2 h1⟩

/-- CPython's `sorted` is a stable sort; with `key=lambda p: p[1]` and
`reverse=True` it is the stable sort under `scoreRel`, which insertion
sort implements. -/
def pySorted (items : List (DescriptorElement × Int)) :
    List (DescriptorElement × Int) :=
  List.insertionSort scoreRel items

/-- `IqrSession.ordered_results`: serve the cached view if present,
otherwise an empty list when there are no results, otherwise compute,
cache and return the sorted view.  The pair is (returned list, session
state after the call). -/
def ordered_results (s : IqrState) :
    List (DescriptorElement × Int) × IqrState :=
  match s.ordered_results_cache with
  | some r => (r, s)
  | none =>
    match s.results with
    | none => ([], s)
    | some items =>
      let r := pySorted items
      (r, { s with ordered_results_cache := some r })

/-- `IqrSession.get_positive_adjudication_relevancy`: filter
`ordered_results` by membership in the positive contribution snapshot. -/
def get_positive_adjudication_relevancy (s : IqrState) :
    List (DescriptorElement × Int) × IqrState :=
  match s.ordered_pos_cache with
  | some r => (r, s)
  | none =>
    let contrib := s.rank_contrib_pos ∪ s.rank_contrib_pos_ext
    let base := ordered_results s
    let r := base.1.filter (fun t => t.1 ∈ contrib)
    (r, { base.2 with ordered_pos_cache := some r })

/-- `IqrSession.get_negative_adjudication_relevancy`. -/
def get_negative_adjudication_relevancy (s : IqrState) :
    List (DescriptorElement × Int) × IqrState :=
  match s.ordered_neg_cache with
  | some r => (r, s)
  | none =>
    let contrib := s.rank_contrib_neg ∪ s.rank_contrib_neg_ext
    let base := ordered_results s
    let r := base.1.filter (fun t => t.1 ∈ contrib)
    (r, { base.2 with ordered_neg_cache := some r })

/-- `IqrSession.get_unadjudicated_relevancy`. -/
def get_unadjudicated_relevancy (s : IqrState) :
    List (DescriptorElement × Int) × IqrState :=
  match s.ordered_non_adj_cache with
  | some r => (r, s)
  | none =>
    let pos_and_neg :=
      s.rank_contrib_pos ∪ s.rank_contrib_pos_ext ∪
        s.rank_contrib_neg ∪ s.rank_contrib_neg_ext
    let base := ordered_results s
    let r := base.1.filter (fun t => t.1 ∉ pos_and_neg)
    (r, { base.2 with ordered_non_adj_cache := some r })

/-- `IqrSession.reset`. -/
def reset (s : IqrState) : IqrState :=
  { s with
    working_set := []
    wi_seeds_used := ∅
    positive_descriptors := ∅
    negative_descriptors := ∅
    external_positive_descriptors := ∅
    external_negative_descriptors := ∅
    rank_contrib_pos := ∅
    rank_contrib_pos_ext := ∅
    rank_contrib_neg := ∅
    rank_contrib_neg_ext := ∅
    results := none
    feedback_list := none
    ordered_results_cache := none
    ordered_pos_cache := none
    ordered_neg_cache := none
    ordered_non_adj_cache := none }

/-- The JSON document inside the state archive produced by
`IqrSession.get_state_bytes` (the zip/JSON byte codec is an invertible
transport wrapper and is not re-modelled). -/
structure IqrStateBlob where
  pos : List (Nat × List Int)
  neg : List (Nat × List Int)
  external_pos : List (Nat × List Int)
  external_neg : List (Nat × List Int)
deriving DecidableEq

/-- `d_set_to_list` in `get_state_bytes`: each descriptor becomes a
`(uuid, vector)` pair; the Python set is enumerated in canonical sorted
order. -/
def d_set_to_list (dset : DSet) : List (Nat × List Int) :=
  (dset.sort (· ≤ ·)).map (fun d => (d.uuid, d.vector))

/-- `IqrSession.get_state_bytes` (the "export" operation). -/
def get_state_bytes (s : IqrState) : IqrStateBlob where
  pos := d_set_to_list s.positive_descriptors
  neg := d_set_to_list s.negative_descriptors
  external_pos := d_set_to_list s.external_positive_descriptors
  external_neg := d_set_to_list s.external_negative_descriptors

/-- A `DescriptorElementFactory`, abstracted to the only observable used
by `set_state_bytes`: `new_descriptor(uid)` yields an element that either
already carries a vector (`some v`) or does not (`none`). -/
abbrev DescriptorFactory := Nat → Option (List Int)

/-- `load_descriptor` inside `IqrSession.set_state_bytes`: reconstruct an
element, asserting any pre-existing vector matches the stored one. -/
def load_descriptor (factory : DescriptorFactory) (uid : Nat)
    (vec : List Int) : Except PyError DescriptorElement :=
  match factory uid with
  | some v => if v = vec then .ok ⟨uid, v⟩ else .error .assertionError
  | none => .ok ⟨uid, vec⟩

/-- The per-target loop in `set_state_bytes`: load each stored pair and
add it to the target set, stopping at the first failed assertion while
keeping the elements already added. -/
def loadInto (factory : DescriptorFactory) :
    List (Nat × List Int) → DSet → DSet × Option PyError
  | [], acc => (acc, none)
  | uv :: rest, acc =>
    match load_descriptor factory uv.1 uv.2 with
    | .error e => (acc, some e)
    | .ok d => loadInto factory rest (insert d acc)

/-- `IqrSession.set_state_bytes` (the "import" operation): full reset,
then reload the four adjudication sets in source order (external pos,
external neg, pos, neg).  A failed vector assertion propagates with the
partially reloaded state. -/
def set_state_bytes (s : IqrState) (blob : IqrStateBlob)
    (factory : DescriptorFactory) : Except (PyError × IqrState) IqrState :=
  let s0 := reset s
  match loadInto factory blob.external_pos
      s0.external_positive_descriptors with
  | (eps, some e) =>
    .error (e, { s0 with external_positive_descriptors := eps })
  | (eps, none) =>
    let s1 := { s0 with external_positive_descriptors := eps }
    match loadInto factory blob.external_neg
        s1.external_negative_descriptors with
    | (ens, some e) =>
      .error (e, { s1 with external_negative_descriptors := ens })
    | (ens, none) =>
      let s2 := { s1 with external_negative_descriptors := ens }
      match loadInto factory blob.pos s2.positive_descriptors with
      | (ps, some e) =>
        .error (e, { s2 with positive_descriptors := ps })
      | (ps, none) =>
        let s3 := { s2 with positive_descriptors := ps }
        match loadInto factory blob.neg s3.negative_descriptors with
        | (ns, some e) =>
          .error (e, { s3 with negative_descriptors := ns })
        | (ns, none) => .ok { s3 with negative_descriptors := ns }

/-- The public session operations that are not invalidating events: every
public operation except `refine`, `reset` and `set_state_bytes` (which
performs a reset).  That is: the two adjudication mutators
(`adjudicate`, `external_descriptors`), working-set growth
(`update_working_set`), the four view accessors, and state export
(`get_state_bytes`, which reads the session without mutating it). -/
inductive SessionOp where
  | adjOp (new_positives new_negatives un_positives un_negatives : DSet)
  | extOp (positive negative : DSet)
  | growOp (nn : DescriptorElement → List DescriptorElement)
  | viewResultsOp
  | viewPosOp
  | viewNegOp
  | viewNonAdjOp
  | exportOp

/-- Apply one non-invalidating operation to the session state.  A grow
call that raises leaves the caller with the state carried by the error
(which `update_working_set` never mutates before raising); an export
computes `get_state_bytes s` and leaves the state untouched. -/
def applySessionOp (s : IqrState) : SessionOp → IqrState
  | .adjOp np nn up un => adjudicate s np nn up un
  | .extOp p n => external_descriptors s p n
  | .growOp nn =>
    match update_working_set s nn with
    | .ok s' => s'
    | .error e => e.2
  | .viewResultsOp => (ordered_results s).2
  | .viewPosOp => (get_positive_adjudication_relevancy s).2
  | .viewNegOp => (get_negative_adjudication_relevancy s).2
  | .viewNonAdjOp => (get_unadjudicated_relevancy s).2
  | .exportOp => s

/-- Apply a sequence of non-invalidating operations. -/
def applySessionOps (s : IqrState) (ops : List SessionOp) : IqrState :=
  ops.foldl applySessionOp s

/-- `True` exactly for the two adjudication mutators (`adjudicate` and
`external_descriptors`); used to state claims whose operation sequences
consist of those two calls only. -/
def SessionOp.isAdj : SessionOp → Prop
  | .adjOp _ _ _ _ => True
  | .extOp _ _ => True
  | _ => False

/-! ### Frame lemmas: growth only touches the working set and the seeds -/

lemma updateWorkingSetStep_frame
    (nn : DescriptorElement → List DescriptorElement)
    (s : IqrState) (p : DescriptorElement) :
    ∃ ws seeds, updateWorkingSetStep nn s p =
      { s with working_set := ws, wi_seeds_used := seeds } := by
  unfold updateWorkingSetStep
  split
  · exact ⟨s.working_set, s.wi_seeds_used, rfl⟩
  · exact ⟨_, _, rfl⟩

lemma foldl_step_frame (nn : DescriptorElement → List DescriptorElement)
    (l : List DescriptorElement) (s : IqrState) :
    ∃ ws seeds, l.foldl (updateWorkingSetStep nn) s =
      { s with working_set := ws, wi_seeds_used := seeds } := by
  induction l generalizing s with
  | nil => exact ⟨s.working_set, s.wi_seeds_used, rfl⟩
  | cons p rest ih =>
    obtain ⟨w1, se1, h1⟩ := updateWorkingSetStep_frame nn s p
    obtain ⟨w2, se2, h2⟩ := ih (updateWorkingSetStep nn s p)
    refine ⟨w2, se2, ?_⟩
    rw [List.foldl_cons, h2, h1]

lemma growOp_frame (nn : DescriptorElement → List DescriptorElement)
    (s : IqrState) :
    ∃ ws seeds, applySessionOp s (SessionOp.growOp nn) =
      { s with working_set := ws, wi_seeds_used := seeds } := by
  by_cases h :
      (s.external_positive_descriptors ∪ s.positive_descriptors).card = 0
  · refine ⟨s.working_set, s.wi_seeds_used, ?_⟩
    simp [applySessionOp, update_working_set, h]
  · obtain ⟨ws, seeds, hf⟩ := foldl_step_frame nn
      ((s.external_positive_descriptors ∪
        s.positive_descriptors).sort (· ≤ ·)) s
    refine ⟨ws, seeds, ?_⟩
    simp only [applySessionOp, update_working_set, h, if_neg, ite_false]
    exact hf

/-! ### Sample descriptors used by concrete witnesses -/

def d0 : DescriptorElement := ⟨0, []⟩

def d1 : DescriptorElement := ⟨1, [5]⟩

/-! ### Frame lemmas: the view accessors only touch the cache fields -/

lemma ordered_results_state (s : IqrState) :
    ∃ c, (ordered_results s).2 = { s with ordered_results_cache := c } := by
  obtain ⟨ws, seeds, ep, en, p, n, rcp, rcpe, rcn, rcne, res, fb, oc, pc, nc, nac⟩ := s
  rcases oc with _ | r
  · rcases res with _ | items
    · exact ⟨_, rfl⟩
    · exact ⟨_, rfl⟩
  · exact ⟨_, rfl⟩

lemma get_pos_state (s : IqrState) :
    ∃ c cp, (get_positive_adjudication_relevancy s).2 =
      { s with ordered_results_cache := c, ordered_pos_cache := cp } := by
  obtain ⟨ws, seeds, ep, en, p, n, rcp, rcpe, rcn, rcne, res, fb, oc, pc, nc, nac⟩ := s
  rcases pc with _ | r
  · rcases oc with _ | r2
    · rcases res with _ | items
      · exact ⟨_, _, rfl⟩
      · exact ⟨_, _, rfl⟩
    · exact ⟨_, _, rfl⟩
  · exact ⟨_, _, rfl⟩

lemma get_neg_state (s : IqrState) :
    ∃ c cn, (get_negative_adjudication_relevancy s).2 =
      { s with ordered_results_cache := c, ordered_neg_cache := cn } := by
  obtain ⟨ws, seeds, ep, en, p, n, rcp, rcpe, rcn, rcne, res, fb, oc, pc, nc, nac⟩ := s
  rcases nc with _ | r
  · rcases oc with _ | r2
    · rcases res with _ | items
      · exact ⟨_, _, rfl⟩
      · exact ⟨_, _, rfl⟩
    · exact ⟨_, _, rfl⟩
  · exact ⟨_, _, rfl⟩

lemma get_non_adj_state (s : IqrState) :
    ∃ c cn, (get_unadjudicated_relevancy s).2 =
      { s with ordered_results_cache := c, ordered_non_adj_cache := cn } := by
  obtain ⟨ws, seeds, ep, en, p, n, rcp, rcpe, rcn, rcne, res, fb, oc, pc, nc, nac⟩ := s
  rcases nac with _ | r
  · rcases oc with _ | r2
    · rcases res with _ | items
      · exact ⟨_, _, rfl⟩
      · exact ⟨_, _, rfl⟩
    · exact ⟨_, _, rfl⟩
  · exact ⟨_, _, rfl⟩

/-! ### The adjudication disjointness invariant (claim C1) -/

/-- The two mutual-exclusion invariants of the adjudication store. -/
def AdjDisjoint (s : IqrState) : Prop :=
  Disjoint s.positive_descriptors s.negative_descriptors ∧
  Disjoint s.external_positive_descriptors s.external_negative_descriptors

lemma adjDisjoint_adjudicate {s : IqrState} (h : AdjDisjoint s)
    (np nn up un : DSet) : AdjDisjoint (adjudicate s np nn up un) := by
  obtain ⟨h1, h2⟩ := h
  constructor
  · rw [Finset.disjoint_left] at h1 ⊢
    intro a ha hb
    simp only [adjudicate, Finset.mem_sdiff, Finset.mem_union] at ha hb
    have := @h1 a
    tauto
  · simpa [adjudicate] using h2

lemma adjDisjoint_external {s : IqrState} (h : AdjDisjoint s)
    (p n : DSet) : AdjDisjoint (external_descriptors s p n) := by
  obtain ⟨h1, h2⟩ := h
  constructor
  · simpa [external_descriptors] using h1
  · rw [Finset.disjoint_left] at h2 ⊢
    intro a ha hb
    simp only [external_descriptors, Finset.mem_sdiff, Finset.mem_union]
      at ha hb
    have := @h2 a
    tauto

lemma adjDisjoint_applySessionOp {s : IqrState} (h : AdjDisjoint s)
    (op : SessionOp) : AdjDisjoint (applySessionOp s op) := by
  cases op with
  | adjOp np nn up un => exact adjDisjoint_adjudicate h np nn up un
  | extOp p n => exact adjDisjoint_external h p n
  | viewResultsOp =>
    obtain ⟨c, hc⟩ := ordered_results_state s
    simpa [applySessionOp, hc, AdjDisjoint] using h
  | viewPosOp =>
    obtain ⟨c, cp, hc⟩ := get_pos_state s
    simpa [applySessionOp, hc, AdjDisjoint] using h
  | viewNegOp =>
    obtain ⟨c, cn, hc⟩ := get_neg_state s
    simpa [applySessionOp, hc, AdjDisjoint] using h
  | viewNonAdjOp =>
    obtain ⟨c, cn, hc⟩ := get_non_adj_state s
    simpa [applySessionOp, hc, AdjDisjoint] using h
  | growOp nn =>
    obtain ⟨ws, seeds, hg⟩ := growOp_frame nn s
    simpa [hg, AdjDisjoint] using h
  | exportOp => exact h

lemma adjDisjoint_applySessionOps {s : IqrState} (h : AdjDisjoint s)
    (ops : List SessionOp) : AdjDisjoint (applySessionOps s ops) := by
  induction ops generalizing s with
  | nil => exact h
  | cons op rest ih =>
    exact ih (adjDisjoint_applySessionOp h op)

/-- Claim C1: for every sequence of `adjudicate` and `set_external` calls
starting from a fresh or reset session, after every such call the
positive and negative sets are disjoint and the external-positive and
external-negative sets are disjoint. -/
theorem claim1_adjudication_disjoint (s0 : IqrState)
    (h0 : s0 = initialState ∨ ∃ s, s0 = reset s)
    (ops : List SessionOp) (_hops : ∀ op ∈ ops, op.isAdj) :
    Disjoint (applySessionOps s0 ops).positive_descriptors
        (applySessionOps s0 ops).negative_descriptors ∧
      Disjoint (applySessionOps s0 ops).external_positive_descriptors
        (applySessionOps s0 ops).external_negative_descriptors := by
  have hbase : AdjDisjoint s0 := by
    rcases h0 with h | ⟨s, h⟩ <;> subst h <;>
      simp [AdjDisjoint, initialState, reset]
  exact adjDisjoint_applySessionOps hbase ops

/-- Witness for C1 at a concrete two-call sequence from the fresh
session. -/
theorem claim1_witness :
    Disjoint (applySessionOps initialState
        [SessionOp.adjOp {d0} {d1} ∅ ∅,
         SessionOp.extOp {d1} {d0}]).positive_descriptors
      (applySessionOps initialState
        [SessionOp.adjOp {d0} {d1} ∅ ∅,
         SessionOp.extOp {d1} {d0}]).negative_descriptors ∧
    Disjoint (applySessionOps initialState
        [SessionOp.adjOp {d0} {d1} ∅ ∅,
         SessionOp.extOp {d1} {d0}]).external_positive_descriptors
      (applySessionOps initialState
        [SessionOp.adjOp {d0} {d1} ∅ ∅,
         SessionOp.extOp {d1} {d0}]).external_negative_descriptors :=
  claim1_adjudication_disjoint initialState (Or.inl rfl)
    [SessionOp.adjOp {d0} {d1} ∅ ∅, SessionOp.extOp {d1} {d0}]
    (by
      intro op hop
      rcases hop with _ | ⟨_, hop⟩
      · exact trivial
      · rcases hop with _ | ⟨_, hop⟩
        · exact trivial
        · cases hop)

/-! ### Claim C3: overlap handling in `set_external` -/

/-- Claim C3 as stated is false: a descriptor passed in both argument
sets of `set_external` does not end up negative.  Concretely, with
`P = N = {d0}` on a fresh session, `d0` is not a member of
`external_negative` afterwards (it is removed from both sets). -/
theorem claim3_counterexample :
    ¬ (d0 ∈ (external_descriptors initialState {d0} {d0}).external_negative_descriptors ∧
        d0 ∉ (external_descriptors initialState {d0} {d0}).external_positive_descriptors) := by
  simp [external_descriptors, initialState]

/-- Claim C3 (amended): for every `set_external(P, N)` call and every
descriptor `d` present in both `P` and `N`, after the call `d` is a
member of neither `external_positive` nor `external_negative` (the two
argument sets cancel each other per descriptor), and no error is
signaled for the overlap (`external_descriptors` is total). -/
theorem claim3_amended (s : IqrState) (P N : DSet) (d : DescriptorElement)
    (hP : d ∈ P) (hN : d ∈ N) :
    d ∉ (external_descriptors s P N).external_positive_descriptors ∧
    d ∉ (external_descriptors s P N).external_negative_descriptors := by
  simp [external_descriptors, hP, hN]

/-- Witness for amended C3 at a concrete overlapping call. -/
theorem claim3_witness :
    d0 ∈ ({d0} : DSet) ∧ d0 ∈ ({d0} : DSet) ∧
    (d0 ∉ (external_descriptors initialState {d0} {d0}).external_positive_descriptors ∧
      d0 ∉ (external_descriptors initialState {d0} {d0}).external_negative_descriptors) :=
  ⟨Finset.mem_singleton_self d0, Finset.mem_singleton_self d0,
    claim3_amended initialState {d0} {d0} d0
      (Finset.mem_singleton_self d0) (Finset.mem_singleton_self d0)⟩

/-! ### Claim C5: mutual cancellation in `adjudicate` -/

/-- Claim C5: for every `adjudicate` call and every descriptor listed in
both the new-positives and new-negatives arguments of that single call,
after the call the descriptor is a member of neither the positive set
nor the negative set. -/
theorem claim5_mutual_cancellation (s : IqrState)
    (np nn up un : DSet) (d : DescriptorElement)
    (hp : d ∈ np) (hn : d ∈ nn) :
    d ∉ (adjudicate s np nn up un).positive_descriptors ∧
    d ∉ (adjudicate s np nn up un).negative_descriptors := by
  simp [adjudicate, hp, hn]

/-- Witness for C5 at a concrete call listing `d0` on both sides. -/
theorem claim5_witness :
    d0 ∈ ({d0} : DSet) ∧ d0 ∈ ({d0} : DSet) ∧
    (d0 ∉ (adjudicate initialState {d0} {d0} ∅ ∅).positive_descriptors ∧
      d0 ∉ (adjudicate initialState {d0} {d0} ∅ ∅).negative_descriptors) :=
  ⟨Finset.mem_singleton_self d0, Finset.mem_singleton_self d0,
    claim5_mutual_cancellation initialState {d0} {d0} ∅ ∅ d0
      (Finset.mem_singleton_self d0) (Finset.mem_singleton_self d0)⟩

/-! ### Claim C7: `update_working_set` precondition -/

/-- Claim C7: `update_working_set` (grow) raises the no-positive-examples
`RuntimeError` if and only if the union of the positive and
external-positive sets is empty at call time; when it raises, the
session state — in particular the working set and `_wi_seeds_used` — is
exactly the state before the call; when the union is non-empty the call
succeeds. -/
theorem claim7_grow_requires_positives (s : IqrState)
    (nn : DescriptorElement → List DescriptorElement) :
    (update_working_set s nn =
        .error (.runtimeError
          "No positive descriptors to query the neighbor index with.", s) ↔
      s.external_positive_descriptors ∪ s.positive_descriptors = ∅) ∧
    (s.external_positive_descriptors ∪ s.positive_descriptors ≠ ∅ →
      ∃ s', update_working_set s nn = .ok s') := by
  by_cases h :
      (s.external_positive_descriptors ∪ s.positive_descriptors).card = 0
  · have he := Finset.card_eq_zero.mp h
    refine ⟨⟨fun _ => he, fun _ => ?_⟩, fun hne => absurd he hne⟩
    simp [update_working_set, h]
  · have hne : s.external_positive_descriptors ∪ s.positive_descriptors ≠ ∅ :=
      fun he => h (by simp [he])
    refine ⟨⟨fun heq => ?_, fun he => absurd he hne⟩, fun _ => ?_⟩
    · simp [update_working_set, h] at heq
    · cases heq2 : update_working_set s nn with
      | error e => simp [update_working_set, h] at heq2
      | ok s' => exact ⟨s', rfl⟩

/-- Witness for C7 on the fresh session (empty positive basis). -/
theorem claim7_witness :
    (update_working_set initialState (fun _ => []) =
        .error (.runtimeError
          "No positive descriptors to query the neighbor index with.",
          initialState) ↔
      initialState.external_positive_descriptors ∪
        initialState.positive_descriptors = ∅) ∧
    (initialState.external_positive_descriptors ∪
        initialState.positive_descriptors ≠ ∅ →
      ∃ s', update_working_set initialState (fun _ => []) = .ok s') :=
  claim7_grow_requires_positives initialState (fun _ => [])

/-! ### Claim C8: `update_working_set` idempotence and monotonicity -/

lemma updateWorkingSetStep_fields (nn : DescriptorElement → List DescriptorElement)
    (s : IqrState) (p : DescriptorElement) :
    (updateWorkingSetStep nn s p).external_positive_descriptors =
        s.external_positive_descriptors ∧
      (updateWorkingSetStep nn s p).positive_descriptors =
        s.positive_descriptors := by
  unfold updateWorkingSetStep
  split <;> exact ⟨rfl, rfl⟩

lemma foldl_step_fields (nn : DescriptorElement → List DescriptorElement)
    (l : List DescriptorElement) (s : IqrState) :
    (l.foldl (updateWorkingSetStep nn) s).external_positive_descriptors =
        s.external_positive_descriptors ∧
      (l.foldl (updateWorkingSetStep nn) s).positive_descriptors =
        s.positive_descriptors := by
  induction l generalizing s with
  | nil => exact ⟨rfl, rfl⟩
  | cons p rest ih =>
    obtain ⟨h1, h2⟩ := updateWorkingSetStep_fields nn s p
    obtain ⟨h3, h4⟩ := ih (updateWorkingSetStep nn s p)
    exact ⟨h3.trans h1, h4.trans h2⟩

lemma step_seeds_subset (nn : DescriptorElement → List DescriptorElement)
    (s : IqrState) (p : DescriptorElement) :
    s.wi_seeds_used ⊆ (updateWorkingSetStep nn s p).wi_seeds_used := by
  unfold updateWorkingSetStep
  split
  · exact Finset.Subset.refl _
  · exact Finset.subset_insert _ _

lemma foldl_step_seeds_subset (nn : DescriptorElement → List DescriptorElement)
    (l : List DescriptorElement) (s : IqrState) :
    s.wi_seeds_used ⊆ (l.foldl (updateWorkingSetStep nn) s).wi_seeds_used := by
  induction l generalizing s with
  | nil => exact Finset.Subset.refl _
  | cons p rest ih =>
    exact (step_seeds_subset nn s p).trans (ih (updateWorkingSetStep nn s p))

lemma step_mem_seeds (nn : DescriptorElement → List DescriptorElement)
    (s : IqrState) (p : DescriptorElement) :
    p.uuid ∈ (updateWorkingSetStep nn s p).wi_seeds_used := by
  unfold updateWorkingSetStep
  split
  · assumption
  · exact Finset.mem_insert_self _ _

lemma foldl_step_mem_seeds (nn : DescriptorElement → List DescriptorElement)
    (l : List DescriptorElement) (s : IqrState) :
    ∀ p ∈ l, p.uuid ∈ (l.foldl (updateWorkingSetStep nn) s).wi_seeds_used := by
  induction l generalizing s with
  | nil => intro p hp; cases hp
  | cons q rest ih =>
    intro p hp
    rcases hp with _ | ⟨_, hp⟩
    · exact foldl_step_seeds_subset nn rest _ (step_mem_seeds nn s q)
    · exact ih (updateWorkingSetStep nn s q) p hp

lemma step_noop (nn : DescriptorElement → List DescriptorElement)
    {s : IqrState} {p : DescriptorElement}
    (h : p.uuid ∈ s.wi_seeds_used) : updateWorkingSetStep nn s p = s := by
  unfold updateWorkingSetStep
  rw [if_pos h]

lemma foldl_step_noop (nn : DescriptorElement → List DescriptorElement)
    {l : List DescriptorElement} {s : IqrState}
    (h : ∀ p ∈ l, p.uuid ∈ s.wi_seeds_used) :
    l.foldl (updateWorkingSetStep nn) s = s := by
  induction l with
  | nil => rfl
  | cons q rest ih =>
    rw [List.foldl_cons, step_noop nn (h q (List.mem_cons_self q rest))]
    exact ih (fun p hp => h p (List.mem_cons_of_mem q hp))

lemma addDescriptor_length (ws : List DescriptorElement)
    (d : DescriptorElement) : ws.length ≤ (addDescriptor ws d).length := by
  unfold addDescriptor
  split
  · rw [List.length_map]
  · simp

lemma addManyDescriptors_length (ds : List DescriptorElement)
    (ws : List DescriptorElement) :
    ws.length ≤ (addManyDescriptors ws ds).length := by
  induction ds generalizing ws with
  | nil => exact le_refl _
  | cons d rest ih =>
    exact (addDescriptor_length ws d).trans (ih (addDescriptor ws d))

lemma step_ws_length (nn : DescriptorElement → List DescriptorElement)
    (s : IqrState) (p : DescriptorElement) :
    s.working_set.length ≤ (updateWorkingSetStep nn s p).working_set.length := by
  unfold updateWorkingSetStep
  split
  · exact le_refl _
  · exact addManyDescriptors_length (nn p) s.working_set

lemma foldl_step_ws_length (nn : DescriptorElement → List DescriptorElement)
    (l : List DescriptorElement) (s : IqrState) :
    s.working_set.length ≤
      (l.foldl (updateWorkingSetStep nn) s).working_set.length := by
  induction l generalizing s with
  | nil => exact le_refl _
  | cons p rest ih =>
    exact (step_ws_length nn s p).trans (ih (updateWorkingSetStep nn s p))

/-- Claim C8: with a non-empty positive basis and a (deterministic, pure)
neighbor-query capability, growing twice in a row with no adjudication
change between the calls leaves the state — in particular `working_set`
and `_wi_seeds_used` — unchanged after the second call; and every
successful grow leaves the working set size non-decreasing. -/
theorem claim8_grow_idempotent_monotonic (s : IqrState)
    (nn : DescriptorElement → List DescriptorElement) :
    ((s.external_positive_descriptors ∪ s.positive_descriptors).Nonempty →
      ∃ s1, update_working_set s nn = .ok s1 ∧
        update_working_set s1 nn = .ok s1) ∧
    (∀ s', update_working_set s nn = .ok s' →
      s.working_set.length ≤ s'.working_set.length) := by
  constructor
  · intro hne
    have hcard :
        ¬ (s.external_positive_descriptors ∪ s.positive_descriptors).card = 0 :=
      fun h => hne.ne_empty (Finset.card_eq_zero.mp h)
    refine ⟨((s.external_positive_descriptors ∪
        s.positive_descriptors).sort (· ≤ ·)).foldl
        (updateWorkingSetStep nn) s, ?_, ?_⟩
    · simp [update_working_set, hcard]
    · set l := (s.external_positive_descriptors ∪
        s.positive_descriptors).sort (· ≤ ·) with hl
      set s1 := l.foldl (updateWorkingSetStep nn) s with hs1
      obtain ⟨hf1, hf2⟩ := foldl_step_fields nn l s
      have hcard1 :
          ¬ (s1.external_positive_descriptors ∪
            s1.positive_descriptors).card = 0 := by
        rw [hf1, hf2]; exact hcard
      have hsorteq :
          (s1.external_positive_descriptors ∪
            s1.positive_descriptors).sort (· ≤ ·) = l := by
        rw [hf1, hf2]
      have hall : ∀ p ∈ l, p.uuid ∈ s1.wi_seeds_used :=
        fun p hp => foldl_step_mem_seeds nn l s p hp
      simp only [update_working_set, hcard1, if_neg, ite_false]
      rw [hsorteq, foldl_step_noop nn hall]
  · intro s' h
    by_cases hcard :
        (s.external_positive_descriptors ∪ s.positive_descriptors).card = 0
    · simp [update_working_set, hcard] at h
    · simp only [update_working_set, hcard, if_neg, ite_false,
        Except.ok.injEq] at h
      rw [← h]
      exact foldl_step_ws_length nn _ s

/-- Witness for C8 at a concrete session with one positive seed. -/
theorem claim8_witness :
    (({ initialState with
        positive_descriptors := {d0} } :
          IqrState).external_positive_descriptors ∪
      ({ initialState with
        positive_descriptors := {d0} } :
          IqrState).positive_descriptors).Nonempty ∧
    ((({ initialState with
        positive_descriptors := {d0} } :
          IqrState).external_positive_descriptors ∪
      ({ initialState with
        positive_descriptors := {d0} } :
          IqrState).positive_descriptors).Nonempty →
      ∃ s1, update_working_set
          { initialState with positive_descriptors := {d0} }
          (fun _ => [d1]) = .ok s1 ∧
        update_working_set s1 (fun _ => [d1]) = .ok s1) :=
  ⟨⟨d0, by simp [initialState]⟩,
    (claim8_grow_idempotent_monotonic
      { initialState with positive_descriptors := {d0} }
      (fun _ => [d1])).1⟩

/-! ### Claim C10: `refine` on an empty working set -/

/-- Claim C10: if `refine` is called when the combined positive set is
non-empty but the working set is empty, the
`pool_uids, pool_de = zip(*self.working_set.items())` unpacking raises a
`ValueError` (no degenerate empty ranking is produced), and the session
state carried out of the failed call — `last_results`, the feedback
list, the four contribution snapshots and all four cached views — is
exactly the state before the call. -/
theorem claim10_refine_empty_working_set (s : IqrState) (cap : RankCap)
    (hpos : (s.positive_descriptors ∪ s.external_positive_descriptors).Nonempty)
    (hws : s.working_set = []) :
    refine s cap = .error (.valueError "not enough values to unpack", s) := by
  have hne : (s.positive_descriptors ∪
      s.external_positive_descriptors).sort (· ≤ ·) ≠ [] := by
    intro h
    have hl := congrArg List.length h
    rw [Finset.length_sort] at hl
    exact hpos.ne_empty (Finset.card_eq_zero.mp hl)
  have hmap : ((s.positive_descriptors ∪
      s.external_positive_descriptors).sort (· ≤ ·)).map
        (fun d => d.vector) ≠ [] := by
    simpa using hne
  simp [refine, hmap, hws]

/-- Witness for C10: one positive adjudication, empty working set. -/
theorem claim10_witness :
    refine { initialState with positive_descriptors := {d0} }
        (fun _ _ _ _ => ([], [])) =
      .error (.valueError "not enough values to unpack",
        { initialState with positive_descriptors := {d0} }) :=
  claim10_refine_empty_working_set
    { initialState with positive_descriptors := {d0} }
    (fun _ _ _ _ => ([], []))
    ⟨d0, by simp [initialState]⟩ rfl

/-! ### Claim C4: state export/import round trip -/

lemma load_descriptor_consistent {factory : DescriptorFactory}
    {d : DescriptorElement}
    (h : factory d.uuid = none ∨ factory d.uuid = some d.vector) :
    load_descriptor factory d.uuid d.vector = .ok d := by
  rcases h with h | h <;> simp [load_descriptor, h]

lemma loadInto_consistent (factory : DescriptorFactory)
    (l : List DescriptorElement) (acc : DSet)
    (h : ∀ d ∈ l, factory d.uuid = none ∨ factory d.uuid = some d.vector) :
    loadInto factory (l.map (fun d => (d.uuid, d.vector))) acc =
      (acc ∪ l.toFinset, none) := by
  induction l generalizing acc with
  | nil => simp [loadInto]
  | cons d rest ih =>
    have hd := load_descriptor_consistent (h d (List.mem_cons_self d rest))
    simp only [List.map_cons, loadInto, hd]
    rw [ih (insert d acc) (fun x hx => h x (List.mem_cons_of_mem d hx))]
    rw [List.toFinset_cons, Finset.insert_union, Finset.union_insert]

lemma loadInto_d_set (factory : DescriptorFactory) (X : DSet)
    (hX : ∀ d ∈ X, factory d.uuid = none ∨ factory d.uuid = some d.vector) :
    loadInto factory (d_set_to_list X) ∅ = (X, none) := by
  unfold d_set_to_list
  rw [loadInto_consistent factory (X.sort (· ≤ ·)) ∅
    (fun d hd => hX d ((Finset.mem_sort _).mp hd))]
  rw [Finset.sort_toFinset, Finset.empty_union]

/-- Claim C4: for a session whose four adjudication sets consist of
descriptors carrying vectors (every modelled descriptor carries one),
importing the exported state with a factory that reproduces consistent
descriptors succeeds and leaves the session with the same four
adjudication sets (by key and vector), and with the working set,
`_wi_seeds_used`, `results`, the feedback list, and all four cached
views cleared. -/
theorem claim4_state_round_trip (s : IqrState) (factory : DescriptorFactory)
    (hcons : ∀ d, d ∈ s.positive_descriptors ∪ s.negative_descriptors ∪
        s.external_positive_descriptors ∪ s.external_negative_descriptors →
      factory d.uuid = none ∨ factory d.uuid = some d.vector) :
    ∃ s', set_state_bytes s (get_state_bytes s) factory = .ok s' ∧
      s'.positive_descriptors = s.positive_descriptors ∧
      s'.negative_descriptors = s.negative_descriptors ∧
      s'.external_positive_descriptors = s.external_positive_descriptors ∧
      s'.external_negative_descriptors = s.external_negative_descriptors ∧
      s'.working_set = [] ∧ s'.wi_seeds_used = ∅ ∧
      s'.results = none ∧ s'.feedback_list = none ∧
      s'.ordered_results_cache = none ∧ s'.ordered_pos_cache = none ∧
      s'.ordered_neg_cache = none ∧ s'.ordered_non_adj_cache = none := by
  have h1 := loadInto_d_set factory s.external_positive_descriptors
    (fun d hd => hcons d (by simp [hd]))
  have h2 := loadInto_d_set factory s.external_negative_descriptors
    (fun d hd => hcons d (by simp [hd]))
  have h3 := loadInto_d_set factory s.positive_descriptors
    (fun d hd => hcons d (by simp [hd]))
  have h4 := loadInto_d_set factory s.negative_descriptors
    (fun d hd => hcons d (by simp [hd]))
  refine ⟨{ reset s with
      external_positive_descriptors := s.external_positive_descriptors
      external_negative_descriptors := s.external_negative_descriptors
      positive_descriptors := s.positive_descriptors
      negative_descriptors := s.negative_descriptors }, ?_,
    rfl, rfl, rfl, rfl, rfl, rfl, rfl, rfl, rfl, rfl, rfl, rfl⟩
  simp only [set_state_bytes, get_state_bytes, reset, h1, h2, h3, h4]

/-- Witness for C4 at a concrete session with one positive and one
external-negative descriptor. -/
theorem claim4_witness :
    ∃ s', set_state_bytes
        { initialState with
          positive_descriptors := {d0}
          external_negative_descriptors := {d1} }
        (get_state_bytes
          { initialState with
            positive_descriptors := {d0}
            external_negative_descriptors := {d1} })
        (fun _ => none) = .ok s' :=
  (claim4_state_round_trip
      { initialState with
        positive_descriptors := {d0}
        external_negative_descriptors := {d1} }
      (fun _ => none)
      (fun _ _ => Or.inl rfl)).elim
    (fun s' h => ⟨s', h.1⟩)

/-! ### Stability of the stable sort underlying `ordered_results` -/

lemma filter_orderedInsert (p : DescriptorElement × Int → Bool)
    (a : DescriptorElement × Int) (l : List (DescriptorElement × Int))
    (hpa : ∀ b, p a = true → p b = true → scoreRel a b) :
    (l.orderedInsert scoreRel a).filter p =
      if p a then a :: l.filter p else l.filter p := by
  rw [List.orderedInsert_eq_take_drop]
  by_cases h : p a = true
  · rw [if_pos h, List.filter_append]
    have htw : (l.takeWhile fun b => ¬ scoreRel a b).filter p = [] := by
      rw [List.filter_eq_nil_iff]
      intro b hb hpb
      have hnab := List.mem_takeWhile_imp hb
      simp only [decide_eq_true_eq] at hnab
      exact hnab (hpa b h hpb)
    rw [htw, List.nil_append, List.filter_cons_of_pos h]
    have hsplit : l.filter p =
        ((l.takeWhile fun b => ¬ scoreRel a b) ++
          l.dropWhile fun b => ¬ scoreRel a b).filter p := by
      rw [List.takeWhile_append_dropWhile]
    rw [hsplit, List.filter_append, htw, List.nil_append]
  · rw [if_neg h, List.filter_append, List.filter_cons_of_neg h]
    rw [← List.filter_append, List.takeWhile_append_dropWhile]

lemma filter_insertionSort (p : DescriptorElement × Int → Bool)
    (l : List (DescriptorElement × Int))
    (hp : ∀ a b, p a = true → p b = true → scoreRel a b) :
    (List.insertionSort scoreRel l).filter p = l.filter p := by
  induction l with
  | nil => rfl
  | cons x l ih =>
    rw [List.insertionSort, filter_orderedInsert p x _ (hp x)]
    by_cases h : p x = true
    · rw [if_pos h, ih, List.filter_cons_of_pos h]
    · rw [if_neg h, ih, List.filter_cons_of_neg h]

/-! ### Claim C6: behavior of `ordered_results` -/

/-- Coherence of the `_ordered_results` cache with `results`: whenever the
cache holds a value it is the sorted view of the current results.  This
holds in every state the session can actually reach (the cache starts
`None`, is cleared by `refine`/`reset`, and is only ever assigned the
sorted view of the then-current `results`). -/
def ResultsCacheOK (s : IqrState) : Prop :=
  ∀ r, s.ordered_results_cache = some r →
    ∃ items, s.results = some items ∧ r = pySorted items

/-- If the cache is `None` then so are the results (holds of every state
produced by a view accessor). -/
def StableOR (s : IqrState) : Prop :=
  s.ordered_results_cache = none → s.results = none

lemma ordered_results_id {s : IqrState} (h : StableOR s) :
    (ordered_results s).2 = s := by
  rcases hc : s.ordered_results_cache with _ | r
  · simp [ordered_results, hc, h hc]
  · simp [ordered_results, hc]

lemma get_pos_frame {s : IqrState} (h : StableOR s) :
    ∃ cp, (get_positive_adjudication_relevancy s).2 =
      { s with ordered_pos_cache := cp } := by
  rcases hp : s.ordered_pos_cache with _ | r
  · refine ⟨some ((ordered_results s).1.filter
      (fun t => t.1 ∈ s.rank_contrib_pos ∪ s.rank_contrib_pos_ext)), ?_⟩
    simp [get_positive_adjudication_relevancy, hp, ordered_results_id h]
  · refine ⟨some r, ?_⟩
    simp only [get_positive_adjudication_relevancy, hp]
    rw [← hp]

lemma get_neg_frame {s : IqrState} (h : StableOR s) :
    ∃ cn, (get_negative_adjudication_relevancy s).2 =
      { s with ordered_neg_cache := cn } := by
  rcases hp : s.ordered_neg_cache with _ | r
  · refine ⟨some ((ordered_results s).1.filter
      (fun t => t.1 ∈ s.rank_contrib_neg ∪ s.rank_contrib_neg_ext)), ?_⟩
    simp [get_negative_adjudication_relevancy, hp, ordered_results_id h]
  · refine ⟨some r, ?_⟩
    simp only [get_negative_adjudication_relevancy, hp]
    rw [← hp]

lemma get_non_adj_frame {s : IqrState} (h : StableOR s) :
    ∃ cn, (get_unadjudicated_relevancy s).2 =
      { s with ordered_non_adj_cache := cn } := by
  rcases hp : s.ordered_non_adj_cache with _ | r
  · refine ⟨some ((ordered_results s).1.filter
      (fun t => t.1 ∉ s.rank_contrib_pos ∪ s.rank_contrib_pos_ext ∪
        s.rank_contrib_neg ∪ s.rank_contrib_neg_ext)), ?_⟩
    simp [get_unadjudicated_relevancy, hp, ordered_results_id h]
  · refine ⟨some r, ?_⟩
    simp only [get_unadjudicated_relevancy, hp]
    rw [← hp]

lemma sessionOp_preserves_or {s : IqrState} (h : StableOR s)
    (op : SessionOp) :
    StableOR (applySessionOp s op) ∧
    (applySessionOp s op).results = s.results ∧
    (applySessionOp s op).ordered_results_cache =
      s.ordered_results_cache := by
  cases op with
  | adjOp np nn up un => exact ⟨h, rfl, rfl⟩
  | extOp p n => exact ⟨h, rfl, rfl⟩
  | viewResultsOp =>
    have he : applySessionOp s SessionOp.viewResultsOp = s :=
      ordered_results_id h
    rw [he]
    exact ⟨h, rfl, rfl⟩
  | viewPosOp =>
    obtain ⟨cp, hcp⟩ := get_pos_frame h
    have he : applySessionOp s SessionOp.viewPosOp =
      { s with ordered_pos_cache := cp } := hcp
    rw [he]
    exact ⟨h, rfl, rfl⟩
  | viewNegOp =>
    obtain ⟨cn, hcn⟩ := get_neg_frame h
    have he : applySessionOp s SessionOp.viewNegOp =
      { s with ordered_neg_cache := cn } := hcn
    rw [he]
    exact ⟨h, rfl, rfl⟩
  | viewNonAdjOp =>
    obtain ⟨cn, hcn⟩ := get_non_adj_frame h
    have he : applySessionOp s SessionOp.viewNonAdjOp =
      { s with ordered_non_adj_cache := cn } := hcn
    rw [he]
    exact ⟨h, rfl, rfl⟩
  | growOp nn =>
    obtain ⟨ws, seeds, hg⟩ := growOp_frame nn s
    rw [hg]
    exact ⟨h, rfl, rfl⟩
  | exportOp => exact ⟨h, rfl, rfl⟩

lemma sessionOps_preserve_or {s : IqrState} (h : StableOR s)
    (ops : List SessionOp) :
    StableOR (applySessionOps s ops) ∧
    (applySessionOps s ops).results = s.results ∧
    (applySessionOps s ops).ordered_results_cache =
      s.ordered_results_cache := by
  induction ops generalizing s with
  | nil => exact ⟨h, rfl, rfl⟩
  | cons op rest ih =>
    obtain ⟨h1, h2, h3⟩ := sessionOp_preserves_or h op
    obtain ⟨h4, h5, h6⟩ := ih h1
    exact ⟨h4, h5.trans h2, h6.trans h3⟩

lemma stableOR_after (s : IqrState) : StableOR (ordered_results s).2 := by
  rcases hc : s.ordered_results_cache with _ | r
  · rcases hr : s.results with _ | items
    · simp [StableOR, ordered_results, hc, hr]
    · simp [StableOR, ordered_results, hc, hr]
  · simp [StableOR, ordered_results, hc]

lemma ordered_results_val_none {s : IqrState}
    (hc : s.ordered_results_cache = none) (hr : s.results = none) :
    (ordered_results s).1 = [] := by
  simp [ordered_results, hc, hr]

lemma ordered_results_val_cache {s : IqrState}
    {r : List (DescriptorElement × Int)}
    (hc : s.ordered_results_cache = some r) :
    (ordered_results s).1 = r := by
  simp [ordered_results, hc]

lemma ordered_results_val_eq_cache (s : IqrState) :
    ((ordered_results s).2.ordered_results_cache = none →
      (ordered_results s).1 = []) ∧
    (∀ r, (ordered_results s).2.ordered_results_cache = some r →
      (ordered_results s).1 = r) := by
  rcases hc : s.ordered_results_cache with _ | r
  · rcases hr : s.results with _ | items
    · simp [ordered_results, hc, hr]
    · simp [ordered_results, hc, hr]
  · simp [ordered_results, hc]

/-- Claim C6: `ordered_results` returns the `results` entries sorted by
non-increasing score with a stable tie-break preserving the enumeration
order used when `results` was built; it returns the empty list whenever
`results` is absent; and two calls with no invalidating event (no
`refine`, no `reset`) between them return equal lists. -/
theorem claim6_ordered_results (s : IqrState) (hok : ResultsCacheOK s) :
    (s.results = none → (ordered_results s).1 = []) ∧
    (∀ items, s.results = some items →
      (∀ c : Int, (ordered_results s).1.filter (fun t => t.2 = c) =
        items.filter (fun t => t.2 = c)) ∧
      (ordered_results s).1.Perm items ∧
      List.Sorted scoreRel (ordered_results s).1) ∧
    (∀ ops : List SessionOp,
      (ordered_results (applySessionOps (ordered_results s).2 ops)).1 =
        (ordered_results s).1) := by
  have hval : ∀ items, s.results = some items →
      (ordered_results s).1 = pySorted items := by
    intro items h
    rcases hc : s.ordered_results_cache with _ | r
    · simp [ordered_results, hc, h]
    · obtain ⟨items2, hi, hr⟩ := hok r hc
      rw [h] at hi
      injection hi with hi
      subst hi
      simp [ordered_results, hc, hr]
  refine ⟨?_, ?_, ?_⟩
  · intro h
    rcases hc : s.ordered_results_cache with _ | r
    · simp [ordered_results, hc, h]
    · obtain ⟨items, hi, -⟩ := hok r hc
      rw [h] at hi
      cases hi
  · intro items h
    rw [hval items h]
    refine ⟨?_, List.perm_insertionSort scoreRel items, ?_⟩
    · intro c
      exact filter_insertionSort (fun t => t.2 = c) items
        (fun a b ha hb => by
          simp only [decide_eq_true_eq] at ha hb
          exact le_of_eq (hb.trans ha.symm))
    · exact List.sorted_insertionSort scoreRel items
  · intro ops
    have hst := stableOR_after s
    obtain ⟨h4, h5, h6⟩ := sessionOps_preserve_or hst ops
    rcases hc2 : (ordered_results s).2.ordered_results_cache with _ | r
    · have hr2 : (ordered_results s).2.results = none := hst hc2
      have hv1 : (ordered_results s).1 = [] :=
        (ordered_results_val_eq_cache s).1 hc2
      have hv2 : (ordered_results (applySessionOps (ordered_results s).2 ops)).1 = [] :=
        ordered_results_val_none (h6.trans hc2) (h5.trans hr2)
      rw [hv1, hv2]
    · have hv1 : (ordered_results s).1 = r :=
        (ordered_results_val_eq_cache s).2 r hc2
      have hv2 : (ordered_results (applySessionOps (ordered_results s).2 ops)).1 = r :=
        ordered_results_val_cache (h6.trans hc2)
      rw [hv1, hv2]

/-- Witness for C6 at a concrete freshly refined results list. -/
theorem claim6_witness :
    ResultsCacheOK { initialState with results := some [(d0, 5), (d1, 7)] } ∧
    (ordered_results
        { initialState with results := some [(d0, 5), (d1, 7)] }).1.Perm
      [(d0, 5), (d1, 7)] :=
  ⟨fun r hr => by simp [initialState] at hr,
    (((claim6_ordered_results
          { initialState with results := some [(d0, 5), (d1, 7)] }
          (fun r hr => by simp [initialState] at hr)).2.1
        [(d0, 5), (d1, 7)] rfl).2.1)⟩

/-! ### Claim C2: `ordered_positive` after a refine -/

/-- The invariant holding from a successful `refine` onward, for result
list `res` and positive contribution snapshots `cp`/`cpe`: `results` and
the snapshots are fixed, and each of the two relevant caches is either
invalidated or holds its correct derived value. -/
def C2Inv (res : List (DescriptorElement × Int)) (cp cpe : DSet)
    (s : IqrState) : Prop :=
  s.results = some res ∧
  s.rank_contrib_pos = cp ∧
  s.rank_contrib_pos_ext = cpe ∧
  (s.ordered_results_cache = none ∨
    s.ordered_results_cache = some (pySorted res)) ∧
  (s.ordered_pos_cache = none ∨
    s.ordered_pos_cache =
      some ((pySorted res).filter (fun t => t.1 ∈ cp ∪ cpe)))

lemma refine_ok_spec {s : IqrState} {cap : RankCap} {s' : IqrState}
    (h : refine s cap = .ok s') :
    ∃ res, s'.results = some res ∧
      s'.ordered_results_cache = none ∧ s'.ordered_pos_cache = none := by
  simp only [refine] at h
  split at h
  · cases h
  · split at h
    · cases h
    · split at h
      · cases h
      · injection h with h
        subst h
        exact ⟨_, rfl, rfl, rfl⟩

lemma adjudicate_pos_cache (s : IqrState) (np nn up un : DSet) :
    (adjudicate s np nn up un).ordered_pos_cache = none ∨
    (adjudicate s np nn up un).ordered_pos_cache =
      s.ordered_pos_cache := by
  simp only [adjudicate]
  split
  · exact Or.inl rfl
  · exact Or.inr rfl

lemma ordered_results_of_inv {s : IqrState}
    {res : List (DescriptorElement × Int)} (hr : s.results = some res)
    (hc : s.ordered_results_cache = none ∨
      s.ordered_results_cache = some (pySorted res)) :
    (ordered_results s).1 = pySorted res ∧
    (ordered_results s).2 =
      { s with ordered_results_cache := some (pySorted res) } := by
  rcases hc with hc | hc
  · constructor
    · simp [ordered_results, hc, hr]
    · simp [ordered_results, hc, hr]
  · constructor
    · exact ordered_results_val_cache hc
    · have hid : (ordered_results s).2 = s := by simp [ordered_results, hc]
      rw [hid, ← hc]

lemma c2inv_op {res : List (DescriptorElement × Int)} {cp cpe : DSet}
    {s : IqrState} (h : C2Inv res cp cpe s) (op : SessionOp) :
    C2Inv res cp cpe (applySessionOp s op) := by
  obtain ⟨h1, h2, h3, h4, h5⟩ := h
  cases op with
  | adjOp np nn up un =>
    refine ⟨h1, h2, h3, h4, ?_⟩
    rcases adjudicate_pos_cache s np nn up un with hh | hh
    · exact Or.inl hh
    · rw [show (applySessionOp s (.adjOp np nn up un)).ordered_pos_cache =
        (adjudicate s np nn up un).ordered_pos_cache from rfl, hh]
      exact h5
  | extOp p n => exact ⟨h1, h2, h3, h4, h5⟩
  | viewResultsOp =>
    have hor := ordered_results_of_inv h1 h4
    have he : applySessionOp s SessionOp.viewResultsOp =
        { s with ordered_results_cache := some (pySorted res) } := hor.2
    rw [he]
    exact ⟨h1, h2, h3, Or.inr rfl, h5⟩
  | viewPosOp =>
    rcases h5 with h5 | h5
    · have hor := ordered_results_of_inv h1 h4
      have he : applySessionOp s SessionOp.viewPosOp =
          { s with
            ordered_results_cache := some (pySorted res)
            ordered_pos_cache := some ((ordered_results s).1.filter
              (fun t => t.1 ∈ s.rank_contrib_pos ∪
                s.rank_contrib_pos_ext)) } := by
        show (get_positive_adjudication_relevancy s).2 = _
        simp only [get_positive_adjudication_relevancy, h5]
        rw [hor.2]
      rw [he]
      refine ⟨h1, h2, h3, Or.inr rfl, Or.inr ?_⟩
      rw [hor.1, h2, h3]
    · have he : applySessionOp s SessionOp.viewPosOp = s := by
        show (get_positive_adjudication_relevancy s).2 = _
        simp [get_positive_adjudication_relevancy, h5]
      rw [he]
      exact ⟨h1, h2, h3, h4, Or.inr h5⟩
  | viewNegOp =>
    rcases hg : s.ordered_neg_cache with _ | r
    · have hor := ordered_results_of_inv h1 h4
      have he : applySessionOp s SessionOp.viewNegOp =
          { s with
            ordered_results_cache := some (pySorted res)
            ordered_neg_cache := some ((ordered_results s).1.filter
              (fun t => t.1 ∈ s.rank_contrib_neg ∪
                s.rank_contrib_neg_ext)) } := by
        show (get_negative_adjudication_relevancy s).2 = _
        simp only [get_negative_adjudication_relevancy, hg]
        rw [hor.2]
      rw [he]
      exact ⟨h1, h2, h3, Or.inr rfl, h5⟩
    · have he : applySessionOp s SessionOp.viewNegOp = s := by
        show (get_negative_adjudication_relevancy s).2 = _
        simp [get_negative_adjudication_relevancy, hg]
      rw [he]
      exact ⟨h1, h2, h3, h4, h5⟩
  | viewNonAdjOp =>
    rcases hg : s.ordered_non_adj_cache with _ | r
    · have hor := ordered_results_of_inv h1 h4
      have he : applySessionOp s SessionOp.viewNonAdjOp =
          { s with
            ordered_results_cache := some (pySorted res)
            ordered_non_adj_cache := some ((ordered_results s).1.filter
              (fun t => t.1 ∉ s.rank_contrib_pos ∪ s.rank_contrib_pos_ext ∪
                s.rank_contrib_neg ∪ s.rank_contrib_neg_ext)) } := by
        show (get_unadjudicated_relevancy s).2 = _
        simp only [get_unadjudicated_relevancy, hg]
        rw [hor.2]
      rw [he]
      exact ⟨h1, h2, h3, Or.inr rfl, h5⟩
    · have he : applySessionOp s SessionOp.viewNonAdjOp = s := by
        show (get_unadjudicated_relevancy s).2 = _
        simp [get_unadjudicated_relevancy, hg]
      rw [he]
      exact ⟨h1, h2, h3, h4, h5⟩
  | growOp nn =>
    obtain ⟨ws, seeds, hgr⟩ := growOp_frame nn s
    rw [hgr]
    exact ⟨h1, h2, h3, h4, h5⟩
  | exportOp => exact ⟨h1, h2, h3, h4, h5⟩

lemma c2inv_ops {res : List (DescriptorElement × Int)} {cp cpe : DSet}
    {s : IqrState} (h : C2Inv res cp cpe s) (ops : List SessionOp) :
    C2Inv res cp cpe (applySessionOps s ops) := by
  induction ops generalizing s with
  | nil => exact h
  | cons op rest ih => exact ih (c2inv_op h op)

lemma c2inv_get_pos {res : List (DescriptorElement × Int)} {cp cpe : DSet}
    {s : IqrState} (h : C2Inv res cp cpe s) :
    (get_positive_adjudication_relevancy s).1 =
      (pySorted res).filter (fun t => t.1 ∈ cp ∪ cpe) := by
  obtain ⟨h1, h2, h3, h4, h5⟩ := h
  rcases h5 with h5 | h5
  · have hor := ordered_results_of_inv h1 h4
    simp [get_positive_adjudication_relevancy, h5, hor.1, h2, h3]
  · simp [get_positive_adjudication_relevancy, h5]

/-- Claim C2: after a successful `refine`, and for every subsequent
sequence of non-invalidating calls (adjudications, external updates,
view reads — no `refine`, no `reset`), `get_positive_adjudication_relevancy`
returns exactly the rows of `ordered_results` whose descriptor lies in
the positive sets snapshotted at that refine
(`rank_contrib_pos ∪ rank_contrib_pos_ext`), and adjudication changes
made after the refine do not change which rows are returned. -/
theorem claim2_ordered_positive_stable (s s' : IqrState) (cap : RankCap)
    (href : refine s cap = .ok s') (ops : List SessionOp) :
    (get_positive_adjudication_relevancy (applySessionOps s' ops)).1 =
      (ordered_results s').1.filter
        (fun t => t.1 ∈ s'.rank_contrib_pos ∪ s'.rank_contrib_pos_ext) ∧
    (get_positive_adjudication_relevancy (applySessionOps s' ops)).1 =
      (get_positive_adjudication_relevancy s').1 := by
  obtain ⟨res, hres, hc, hp⟩ := refine_ok_spec href
  have hinv : C2Inv res s'.rank_contrib_pos s'.rank_contrib_pos_ext s' :=
    ⟨hres, rfl, rfl, Or.inl hc, Or.inl hp⟩
  have hval1 := c2inv_get_pos (c2inv_ops hinv ops)
  have hval2 := c2inv_get_pos hinv
  have hor := ordered_results_of_inv hres (Or.inl hc)
  constructor
  · rw [hval1, hor.1]
  · rw [hval1, hval2]

/-- Concrete session for the C2 witness: one-element working set, one
positive adjudication. -/
def c2WitState : IqrState :=
  { initialState with working_set := [d0], positive_descriptors := {d0} }

/-- Concrete ranking capability for the C2 witness. -/
def c2WitCap : RankCap := fun _ _ _ _ => ([7], [])

/-- The session state after the C2 witness refine. -/
def c2WitState' : IqrState :=
  { initialState with
    working_set := [d0]
    positive_descriptors := {d0}
    rank_contrib_pos := {d0}
    results := some [(d0, 7)]
    feedback_list := some [] }

lemma c2wit_refine : refine c2WitState c2WitCap = .ok c2WitState' := by
  simp [refine, c2WitState, c2WitCap, c2WitState', initialState,
    get_many_descriptors, List.mapM, List.mapM.loop, d0]

/-- Witness for C2: the refined session, followed by an adjudication
that un-marks the positive descriptor, still reports the snapshotted
positive row. -/
theorem claim2_witness :
    (get_positive_adjudication_relevancy
        (applySessionOps c2WitState' [SessionOp.adjOp ∅ {d0} ∅ ∅])).1 =
      (ordered_results c2WitState').1.filter
        (fun t => t.1 ∈ c2WitState'.rank_contrib_pos ∪
          c2WitState'.rank_contrib_pos_ext) ∧
    (get_positive_adjudication_relevancy
        (applySessionOps c2WitState' [SessionOp.adjOp ∅ {d0} ∅ ∅])).1 =
      (get_positive_adjudication_relevancy c2WitState').1 :=
  claim2_ordered_positive_stable c2WitState c2WitState' c2WitCap
    c2wit_refine [SessionOp.adjOp ∅ {d0} ∅ ∅]

end IqrSessionModel
